import Mathlib

/-!
Shallow embedding of `src/dyn_array.hpp` (class `cz::dyn_array<T>`), at the
default template parameters `SizeT = size_t`, `initial_cap = 8`,
`multiplier = 2`, which are the parameters all the verified properties
concern.  Machine sizes are modelled as `Nat` (the quantities involved are
tiny and never overflow a 64-bit `size_t`).

A storage slot of the backing buffer is either raw (uninitialized memory)
or holds a constructed element; the buffer pointer `m_begin` is `none` for
`nullptr` and otherwise carries the list of `m_cap` slots.  Moving out of a
slot leaves it constructed (in C++ the moved-from object still has to be
destroyed); we keep its previous value, since only its constructedness is
observable to the properties below.
-/

namespace cz

/-- One element-slot of the backing storage: raw memory or a constructed value. -/
inductive Slot (α : Type) where
  | raw : Slot α
  | live : α → Slot α
deriving DecidableEq, Repr

/-- Whether a slot holds a constructed element. -/
def Slot.isLive {α : Type} : Slot α → Bool
  | .raw => false
  | .live _ => true

/-- The member state of `cz::dyn_array`: allocator (stateless, omitted),
`m_begin` (`none` = `nullptr`), `m_size`, `m_cap`. -/
structure dyn_array (α : Type) where
  m_begin : Option (List (Slot α))
  m_size : Nat
  m_cap : Nat
deriving DecidableEq, Repr

/-- The default `initial_cap` template parameter. -/
def initial_cap : Nat := 8

/-- The default `multiplier` template parameter. -/
def multiplier : Nat := 2

/-- The capacity-growth loop `while (cap < minimal_cap) cap *= multiplier`,
shared by `_set_cap_and_alloc` and `_set_cap_and_realloc`.  The guard
`1 < mult ∧ 0 < cap` makes the recursion well-founded; both callers run the
loop with `cap ≥ initial_cap = 8` and `mult = 2`, where the guard is
equivalent to the loop condition. -/
def growCap (mult cap minimal : Nat) : Nat :=
  if h : 1 < mult ∧ 0 < cap ∧ cap < minimal then growCap mult (cap * mult) minimal else cap
termination_by minimal - cap
decreasing_by
  have h1 : cap + 1 ≤ cap * mult := by
    calc cap + 1 ≤ cap + cap := by omega
    _ = cap * 2 := by ring
    _ ≤ cap * mult := Nat.mul_le_mul_left cap (by omega)
  omega

namespace dyn_array

variable {α : Type}

/-- The backing buffer as a slot list (empty when `m_begin` is `nullptr`). -/
def buf (a : dyn_array α) : List (Slot α) := a.m_begin.getD []

/-- The slot at offset `i` of the backing buffer. -/
def slot (a : dyn_array α) (i : Nat) : Slot α := (buf a).getD i Slot.raw

/-- Reading the element at offset `i` (used only where the C++ code reads a
constructed slot; the `default` branch models the unreachable raw case). -/
def readSlot [Inhabited α] (a : dyn_array α) (i : Nat) : α :=
  match a.slot i with
  | .live v => v
  | .raw => default

/-- The element values at offsets `[0, m_size)`, in order: what iterating
from `begin()` to `end()` yields. -/
def vals [Inhabited α] (a : dyn_array α) : List α :=
  (List.range a.m_size).map a.readSlot

/-- Well-formedness of a container state: the buffer has exactly `m_cap`
slots, `m_size ≤ m_cap`, and the slots at `[0, m_size)` are constructed. -/
def WF (a : dyn_array α) : Prop :=
  (buf a).length = a.m_cap ∧ a.m_size ≤ a.m_cap ∧
    ∀ i, i < a.m_size → (a.slot i).isLive = true

instance (a : dyn_array α) [DecidableEq α] : Decidable a.WF := by
  unfold WF; infer_instance

/-- Model of `_set_cap_and_alloc(minimal_cap)`: grow `m_cap` (from `initial_cap` when
it was 0) until it reaches `minimal_cap`, then allocate a fresh raw buffer
of `m_cap` slots. -/
def _set_cap_and_alloc (a : dyn_array α) (minimal_cap : Nat) : dyn_array α :=
  let c := growCap multiplier (if a.m_cap = 0 then initial_cap else a.m_cap) minimal_cap
  { a with m_cap := c, m_begin := some (List.replicate c Slot.raw) }

/-- Model of `_realloc(size)`: allocate a new buffer of `size` slots, move-construct
the `m_size` old elements into its front, release the old buffer, set
`m_cap = size`.  (The code only calls it with `m_size ≤ size`.) -/
def _realloc (a : dyn_array α) (size : Nat) : dyn_array α :=
  { a with
      m_begin := some ((buf a).take a.m_size ++ List.replicate (size - a.m_size) Slot.raw)
      m_cap := size }

/-- Model of `_set_cap_and_realloc(minimal_cap)`: compute the grown capacity exactly
as `_set_cap_and_alloc` does, then `_realloc` to it. -/
def _set_cap_and_realloc (a : dyn_array α) (minimal_cap : Nat) : dyn_array α :=
  _realloc a (growCap multiplier (if a.m_cap = 0 then initial_cap else a.m_cap) minimal_cap)

/-- Model of `_fill_with_val(value)`: construct `value` into the slots `[0, m_size)`. -/
def _fill_with_val (a : dyn_array α) (value : α) : dyn_array α :=
  { a with m_begin := some (List.replicate a.m_size (Slot.live value) ++ (buf a).drop a.m_size) }

/-- Model of `_fill_from_range_unchecked(f)`: construct copies of the first `m_size`
elements of the source range into the slots `[0, m_size)`. -/
def _fill_from_range_unchecked (a : dyn_array α) (vs : List α) : dyn_array α :=
  { a with m_begin := some ((vs.take a.m_size).map Slot.live ++ (buf a).drop a.m_size) }

/-- The default constructor `dyn_array()`: empty, no allocation. -/
def mkEmpty : dyn_array α := ⟨none, 0, 0⟩

/-- The constructor `dyn_array(count, value)`: sets `m_size = count`, then
`_set_cap_and_alloc(count)` and `_fill_with_val(value)`. -/
def mkCountFill (count : Nat) (value : α) : dyn_array α :=
  (_set_cap_and_alloc ⟨none, count, 0⟩ count)._fill_with_val value

/-- The constructor `dyn_array(count)`: as `dyn_array(count, value)` with a value-initialized
fill value `T{}` (modelled by `default`). -/
def mkCount [Inhabited α] (count : Nat) : dyn_array α :=
  mkCountFill count default

/-- The constructor `dyn_array(f, l)` for a random-access range holding the values `vs`:
sets `m_size = l - f = vs.length`, then `_set_cap_and_alloc(m_size)` and
`_fill_from_range_unchecked(f)`. -/
def mkFromRange (vs : List α) : dyn_array α :=
  (_set_cap_and_alloc ⟨none, vs.length, 0⟩ vs.length)._fill_from_range_unchecked vs

/-- The move constructor `dyn_array(dyn_array&& other)`: steal the members, null out the source.
Returns (the new container, the source after the move). -/
def moveCtor (other : dyn_array α) : dyn_array α × dyn_array α :=
  (⟨other.m_begin, other.m_size, other.m_cap⟩, ⟨none, 0, 0⟩)

/-- Move assignment `operator=(dyn_array&& other)`: destroy and deallocate the destination's
state, steal the source's members, null out the source.  Returns
(the destination after assignment, the source after assignment). -/
def moveAssign (dest other : dyn_array α) : dyn_array α × dyn_array α :=
  (⟨other.m_begin, other.m_size, other.m_cap⟩, ⟨none, 0, 0⟩)

/-- Model of `std::lexicographical_compare(f1, l1, f2, l2, comp)`: at the first
position where `comp` orders the elements either way, return that verdict;
if the first range is exhausted first, it compares less. -/
def lexCompare (comp : α → α → Bool) : List α → List α → Bool
  | _, [] => false
  | [], _ :: _ => true
  | x :: xs, y :: ys =>
    if comp x y then true else if comp y x then false else lexCompare comp xs ys

/-- The operator `<`: `_lex_cmp<std::less>`. -/
def op_lt [Inhabited α] [LT α] [DecidableRel (α := α) (· < ·)] (a b : dyn_array α) : Bool :=
  lexCompare (fun x y => decide (x < y)) a.vals b.vals

/-- The operator `>`: `_lex_cmp<std::greater>`. -/
def op_gt [Inhabited α] [LT α] [DecidableRel (α := α) (· < ·)] (a b : dyn_array α) : Bool :=
  lexCompare (fun x y => decide (y < x)) a.vals b.vals

/-- The operator `<=`: `_lex_cmp<std::less_equal>`. -/
def op_le [Inhabited α] [LE α] [DecidableRel (α := α) (· ≤ ·)] (a b : dyn_array α) : Bool :=
  lexCompare (fun x y => decide (x ≤ y)) a.vals b.vals

/-- The operator `>=`: `_lex_cmp<std::greater_equal>`. -/
def op_ge [Inhabited α] [LE α] [DecidableRel (α := α) (· ≤ ·)] (a b : dyn_array α) : Bool :=
  lexCompare (fun x y => decide (y ≤ x)) a.vals b.vals

/-- The debug assertion of the slicing `operator[](std::pair)`:
`first <= second && first < m_size && second <= m_size`. -/
def sliceAssert (a : dyn_array α) (f l : Nat) : Prop :=
  f ≤ l ∧ f < a.m_size ∧ l ≤ a.m_size

instance (a : dyn_array α) (f l : Nat) : Decidable (a.sliceAssert f l) := by
  unfold sliceAssert; infer_instance

/-- Model of `slice(f, l)` and the slicing `operator[](pair)`: a fresh container built by the range
constructor from the buffer positions `[f, l)`. -/
def slice [Inhabited α] (a : dyn_array α) (f l : Nat) : dyn_array α :=
  mkFromRange ((List.range (l - f)).map fun i => a.readSlot (f + i))

/-- Model of `reserve(n)`: `_realloc(n)` when `m_cap < n`, otherwise no-op. -/
def reserve (a : dyn_array α) (n : Nat) : dyn_array α :=
  if a.m_cap < n then a._realloc n else a

/-- Model of `shrink_to_fit()`: `_realloc(m_size)` when `m_size < m_cap`. -/
def shrink_to_fit (a : dyn_array α) : dyn_array α :=
  if a.m_size < a.m_cap then a._realloc a.m_size else a

/-- Model of `push_back(arg)`: grow via `_set_cap_and_realloc(m_size + 1)` when full,
then construct `arg` at slot `m_size` and increment `m_size`. -/
def push_back (a : dyn_array α) (arg : α) : dyn_array α :=
  let a := if a.m_size = a.m_cap then a._set_cap_and_realloc (a.m_size + 1) else a
  { a with m_begin := some ((buf a).set a.m_size (Slot.live arg)), m_size := a.m_size + 1 }

/-- Folding `push_back` over a list of arguments. -/
def pushList (a : dyn_array α) (vs : List α) : dyn_array α :=
  vs.foldl push_back a

/-- The capacity after one `push_back` on a container of size `s` and
capacity `c`: the growth branch runs exactly when `s == c`. -/
def capStep (s c : Nat) : Nat :=
  if s = c then growCap multiplier (if c = 0 then initial_cap else c) (s + 1) else c

/-- The (size-independent) capacity after `n` `push_back`s starting from
size `s` and capacity `c`. -/
def capIter (s c : Nat) : Nat → Nat
  | 0 => c
  | n + 1 => capIter (s + 1) (capStep s c) n

/-- Model of `pop_back()`: `return std::move(m_begin[--m_size]);` — decrements
`m_size` and moves the last element out.  No destroy call is made, so the
vacated slot keeps its (moved-from) constructed object. -/
def pop_back [Inhabited α] (a : dyn_array α) : α × dyn_array α :=
  (a.readSlot (a.m_size - 1), { a with m_size := a.m_size - 1 })

/-- The shift loop of `remove_at`: `for (; idx < _end; ++idx)
m_begin[idx] = std::move(m_begin[idx + 1]);`, phrased by recursion on the
remaining iteration count `_end - idx`. -/
def shiftLeft (b : List (Slot α)) (idx : Nat) : Nat → List (Slot α)
  | 0 => b
  | k + 1 => shiftLeft (b.set idx (b.getD (idx + 1) Slot.raw)) (idx + 1) k

/-- Model of `remove_at(idx)`: decrement `m_size`, then shift the slots
`(idx, old m_size)` one step down by move-assignment.  No destroy call is
made on the vacated last slot. -/
def remove_at (a : dyn_array α) (idx : Nat) : dyn_array α :=
  { a with
      m_begin := some (shiftLeft (buf a) idx (a.m_size - 1 - idx))
      m_size := a.m_size - 1 }

end dyn_array

/-! ### The growth loop -/

/-- If the requested capacity is already reached, the growth loop exits at once. -/
theorem growCap_of_le (u c m : Nat) (h : m ≤ c) : growCap u c m = c := by
  rw [growCap]
  exact dif_neg (by omega)

/-- One iteration of the growth loop. -/
theorem growCap_step (u c m : Nat) (h1 : 1 < u) (h2 : 0 < c) (h3 : c < m) :
    growCap u c m = growCap u (c * u) m := by
  rw [growCap]
  exact dif_pos ⟨h1, h2, h3⟩

/-- The grown capacity reaches the requested minimum. -/
theorem growCap_ge (u : Nat) (hu : 1 < u) (c m : Nat) (hc : 0 < c) : m ≤ growCap u c m := by
  induction c, m using growCap.induct u with
  | case1 c m h ih =>
    rw [growCap_step u c m h.1 h.2.1 h.2.2]
    exact ih (by positivity)
  | case2 c m h =>
    rw [growCap_of_le u c m (by omega)]
    omega

/-- The grown capacity is the start capacity times a power of the multiplier. -/
theorem growCap_pow (u c m : Nat) : ∃ k, growCap u c m = c * u ^ k := by
  induction c, m using growCap.induct u with
  | case1 c m h ih =>
    obtain ⟨k, hk⟩ := ih
    rw [growCap_step u c m h.1 h.2.1 h.2.2]
    exact ⟨k + 1, by rw [hk]; ring⟩
  | case2 c m h =>
    exact ⟨0, by rw [growCap, dif_neg h]; ring⟩

/-- The grown capacity is the least start-capacity-times-power reaching the
requested minimum. -/
theorem growCap_min (u : Nat) (hu : 1 < u) (c m : Nat) (hc : 0 < c) :
    ∀ j, m ≤ c * u ^ j → growCap u c m ≤ c * u ^ j := by
  induction c, m using growCap.induct u with
  | case1 c m h ih =>
    intro j hj
    rw [growCap_step u c m h.1 h.2.1 h.2.2]
    match j with
    | 0 =>
      exfalso
      simp only [pow_zero, mul_one] at hj
      omega
    | j + 1 =>
      have hj' : m ≤ c * u * u ^ j := by
        calc m ≤ c * u ^ (j + 1) := hj
        _ = c * u * u ^ j := by ring
      calc growCap u (c * u) m ≤ c * u * u ^ j := ih (by positivity) j hj'
      _ = c * u ^ (j + 1) := by ring
  | case2 c m h =>
    intro j hj
    rw [growCap_of_le u c m (by omega)]
    have : 1 ≤ u ^ j := Nat.one_le_pow j u (by omega)
    nlinarith

theorem growCap_2_8_9 : growCap 2 8 9 = 16 := by
  rw [growCap_step 2 8 9 (by omega) (by omega) (by omega), growCap_of_le 2 16 9 (by omega)]

namespace dyn_array

variable {α : Type}

/-! ### Basic buffer lemmas -/

/-- A buffer whose first `xs.length` slots hold `xs` reads those elements back. -/
theorem slot_of_live_block (a : dyn_array α) (xs : List α) (rest : List (Slot α))
    (hb : buf a = xs.map Slot.live ++ rest) (i : Nat) (hi : i < xs.length) :
    a.slot i = Slot.live (xs.get ⟨i, hi⟩) := by
  unfold slot
  rw [hb, List.getD_append _ _ _ i (by simpa), List.getD_eq_getElem _ _ (by simpa),
    List.getElem_map]
  rfl

theorem readSlot_of_slot [Inhabited α] (a : dyn_array α) (i : Nat) (v : α)
    (h : a.slot i = Slot.live v) : a.readSlot i = v := by
  unfold readSlot
  rw [h]

theorem vals_getElem [Inhabited α] (a : dyn_array α) (n : Nat) (h1 : n < a.vals.length) :
    a.vals[n] = a.readSlot n := by
  unfold vals at h1 ⊢
  rw [List.getElem_map, List.getElem_range]

theorem vals_length [Inhabited α] (a : dyn_array α) : a.vals.length = a.m_size := by
  simp [vals]

/-- Containers agreeing in size and in every slot below it have equal `vals`. -/
theorem vals_congr [Inhabited α] (a b : dyn_array α) (hs : a.m_size = b.m_size)
    (h : ∀ i, i < a.m_size → a.slot i = b.slot i) : a.vals = b.vals := by
  apply List.ext_getElem (by simp [vals, hs])
  intro n h1 h2
  rw [vals_getElem a n h1, vals_getElem b n h2]
  unfold readSlot
  rw [h n (by simpa [vals] using h1)]

theorem vals_eq_of_buf [Inhabited α] (a : dyn_array α) (xs : List α) (rest : List (Slot α))
    (hb : buf a = xs.map Slot.live ++ rest) (hs : a.m_size = xs.length) : a.vals = xs := by
  apply List.ext_getElem (by simp [vals, hs])
  intro n h1 h2
  rw [vals_getElem a n h1,
    readSlot_of_slot a n (xs.get ⟨n, h2⟩) (slot_of_live_block a xs rest hb n h2)]
  rfl

theorem WF_of_buf (a : dyn_array α) (xs : List α) (k : Nat)
    (hb : buf a = xs.map Slot.live ++ List.replicate k Slot.raw)
    (hs : a.m_size = xs.length) (hc : a.m_cap = xs.length + k) : a.WF := by
  refine ⟨by simp [hb, hc], by omega, ?_⟩
  intro i hi
  rw [slot_of_live_block a xs _ hb i (by omega)]
  rfl

theorem WF_mkEmpty : (mkEmpty : dyn_array α).WF :=
  ⟨rfl, Nat.le_refl 0, fun i hi => absurd hi (Nat.not_lt_zero i)⟩

/-! ### The range constructor -/

theorem mkFromRange_eq (vs : List α) :
    mkFromRange vs =
      ⟨some (vs.map Slot.live ++
          List.replicate (growCap 2 8 vs.length - vs.length) Slot.raw),
        vs.length, growCap 2 8 vs.length⟩ := by
  unfold mkFromRange _fill_from_range_unchecked _set_cap_and_alloc
  simp [buf, multiplier, initial_cap, List.drop_replicate, List.take_length]

theorem mkFromRange_size (vs : List α) : (mkFromRange vs).m_size = vs.length := rfl

theorem mkFromRange_cap (vs : List α) : (mkFromRange vs).m_cap = growCap 2 8 vs.length := rfl

theorem mkFromRange_len_le_cap (vs : List α) : vs.length ≤ (mkFromRange vs).m_cap := by
  rw [mkFromRange_cap]
  exact growCap_ge 2 (by omega) 8 vs.length (by omega)

theorem buf_mkFromRange (vs : List α) :
    buf (mkFromRange vs) =
      vs.map Slot.live ++ List.replicate (growCap 2 8 vs.length - vs.length) Slot.raw := by
  rw [mkFromRange_eq]
  rfl

theorem vals_mkFromRange [Inhabited α] (vs : List α) : (mkFromRange vs).vals = vs :=
  vals_eq_of_buf _ vs _ (buf_mkFromRange vs) (mkFromRange_size vs)

theorem WF_mkFromRange (vs : List α) : (mkFromRange vs).WF := by
  refine WF_of_buf _ vs (growCap 2 8 vs.length - vs.length) (buf_mkFromRange vs)
    (mkFromRange_size vs) ?_
  have := mkFromRange_len_le_cap vs
  rw [mkFromRange_cap] at *
  omega

/-! ### The count constructors -/

theorem mkCountFill_eq (count : Nat) (v : α) :
    mkCountFill count v =
      ⟨some (List.replicate count (Slot.live v) ++
          List.replicate (growCap 2 8 count - count) Slot.raw),
        count, growCap 2 8 count⟩ := by
  unfold mkCountFill _fill_with_val _set_cap_and_alloc
  simp [buf, multiplier, initial_cap, List.drop_replicate]

theorem mkCountFill_cap (count : Nat) (v : α) :
    (mkCountFill count v).m_cap = growCap 2 8 count := rfl

/-! ### `_realloc`, `reserve`, `shrink_to_fit` -/

theorem _realloc_size (a : dyn_array α) (n : Nat) : (a._realloc n).m_size = a.m_size := rfl

theorem _realloc_cap (a : dyn_array α) (n : Nat) : (a._realloc n).m_cap = n := rfl

theorem _realloc_slot (a : dyn_array α) (n : Nat) (hlen : a.m_size ≤ (buf a).length)
    (i : Nat) (hi : i < a.m_size) : (a._realloc n).slot i = a.slot i := by
  have hbuf : buf (a._realloc n) =
      (buf a).take a.m_size ++ List.replicate (n - a.m_size) Slot.raw := rfl
  have hi' : i < ((buf a).take a.m_size).length := by
    rw [List.length_take]
    omega
  unfold slot
  rw [hbuf, List.getD_append _ _ _ i hi', List.getD_eq_getElem _ _ hi', List.getElem_take,
    List.getD_eq_getElem _ _ (by omega)]

theorem _realloc_WF (a : dyn_array α) (n : Nat) (h : a.WF) (hn : a.m_size ≤ n) :
    (a._realloc n).WF := by
  obtain ⟨hlen, hsc, hlive⟩ := h
  refine ⟨?_, by rw [_realloc_size, _realloc_cap]; omega, ?_⟩
  · show ((buf a).take a.m_size ++ List.replicate (n - a.m_size) Slot.raw).length = n
    rw [List.length_append, List.length_take, List.length_replicate]
    omega
  · intro i hi
    rw [_realloc_size] at hi
    rw [_realloc_slot a n (by omega) i hi]
    exact hlive i hi

theorem _realloc_vals [Inhabited α] (a : dyn_array α) (n : Nat) (h : a.WF) :
    (a._realloc n).vals = a.vals := by
  refine vals_congr _ _ (_realloc_size a n) ?_
  intro i hi
  rw [_realloc_size] at hi
  exact _realloc_slot a n (by rw [h.1]; exact h.2.1) i hi

theorem reserve_spec [Inhabited α] (a : dyn_array α) (n : Nat) (h : a.WF) :
    (a.reserve n).WF ∧ (a.reserve n).m_size = a.m_size ∧ (a.reserve n).vals = a.vals := by
  unfold reserve
  by_cases hc : a.m_cap < n
  · rw [if_pos hc]
    exact ⟨_realloc_WF a n h (by have := h.2.1; omega), _realloc_size a n, _realloc_vals a n h⟩
  · rw [if_neg hc]
    exact ⟨h, rfl, rfl⟩

theorem shrink_to_fit_spec [Inhabited α] (a : dyn_array α) (h : a.WF) :
    a.shrink_to_fit.m_cap = a.m_size ∧ a.shrink_to_fit.m_size = a.m_size ∧
      a.shrink_to_fit.vals = a.vals := by
  unfold shrink_to_fit
  by_cases hc : a.m_size < a.m_cap
  · rw [if_pos hc]
    exact ⟨_realloc_cap a a.m_size, _realloc_size a a.m_size, _realloc_vals a _ h⟩
  · rw [if_neg hc]
    have := h.2.1
    exact ⟨by omega, rfl, rfl⟩

/-! ### `push_back` -/

theorem push_back_size (a : dyn_array α) (v : α) : (a.push_back v).m_size = a.m_size + 1 := by
  unfold push_back _set_cap_and_realloc _realloc
  by_cases h : a.m_size = a.m_cap <;> simp [h]

theorem push_back_cap (a : dyn_array α) (v : α) :
    (a.push_back v).m_cap = capStep a.m_size a.m_cap := by
  unfold push_back _set_cap_and_realloc _realloc capStep
  by_cases h : a.m_size = a.m_cap <;> simp [h]

theorem pushList_cons (a : dyn_array α) (v : α) (vs : List α) :
    a.pushList (v :: vs) = (a.push_back v).pushList vs := rfl

theorem pushList_cap_size (vs : List α) : ∀ a : dyn_array α,
    (a.pushList vs).m_cap = capIter a.m_size a.m_cap vs.length ∧
      (a.pushList vs).m_size = a.m_size + vs.length := by
  induction vs with
  | nil => exact fun a => ⟨rfl, rfl⟩
  | cons v vs ih =>
    intro a
    rw [pushList_cons]
    refine ⟨?_, ?_⟩
    · rw [(ih (a.push_back v)).1, push_back_size, push_back_cap]
      rfl
    · rw [(ih (a.push_back v)).2, push_back_size]
      simp only [List.length_cons]
      omega

/-! ### The claims -/

/-- Claim C1 (code bug in `pop_back`/`remove_at`): the constructed-slot
invariant is NOT preserved.  After `pop_back` on `[3, 4]` the size is 1 and
the capacity 8, yet the slot at offset 1 — which the invariant requires to
be raw — still holds a constructed element, because `pop_back` never calls
`destroy` on it; likewise `remove_at 0` on `[7, 8, 9]` leaves the vacated
slot at offset 2 constructed. -/
theorem C1_pop_leaves_slot_constructed :
    ((mkFromRange [(3 : Int), 4]).pop_back.2.m_size = 1 ∧
      (mkFromRange [(3 : Int), 4]).pop_back.2.m_cap = 8 ∧
      ((mkFromRange [(3 : Int), 4]).pop_back.2.slot 1).isLive = true) ∧
    (((mkFromRange [(7 : Int), 8, 9]).remove_at 0).m_size = 2 ∧
      (((mkFromRange [(7 : Int), 8, 9]).remove_at 0).slot 2).isLive = true) := by
  have e1 : mkFromRange [(3 : Int), 4] =
      ⟨some [Slot.live 3, Slot.live 4, Slot.raw, Slot.raw, Slot.raw, Slot.raw, Slot.raw,
        Slot.raw], 2, 8⟩ := by
    rw [mkFromRange_eq, show [(3 : Int), 4].length = 2 from rfl,
      growCap_of_le 2 8 2 (by omega)]
    decide
  have e2 : mkFromRange [(7 : Int), 8, 9] =
      ⟨some [Slot.live 7, Slot.live 8, Slot.live 9, Slot.raw, Slot.raw, Slot.raw, Slot.raw,
        Slot.raw], 3, 8⟩ := by
    rw [mkFromRange_eq, show [(7 : Int), 8, 9].length = 3 from rfl,
      growCap_of_le 2 8 3 (by omega)]
    decide
  rw [e1, e2]
  decide

/-- Claim C2, counterexample: the range constructor does NOT allocate
capacity exactly equal to the sequence length — for the three-element
sequence `[1, 2, 3]` it allocates capacity 8. -/
theorem C2_capacity_not_exact_cex :
    (mkFromRange [(1 : Int), 2, 3]).m_cap = 8 ∧
      (mkFromRange [(1 : Int), 2, 3]).m_cap ≠ [(1 : Int), 2, 3].length := by
  rw [mkFromRange_cap, show [(1 : Int), 2, 3].length = 3 from rfl,
    growCap_of_le 2 8 3 (by omega)]
  exact ⟨rfl, by decide⟩

/-- Claim C2, amended: constructing from a random-access sequence `[f, l)`
yields size `l - f` with the elements copied in sequence order, and
allocates capacity equal to the smallest value of the form `8 * 2 ^ k`
that is at least `l - f` (not exactly `l - f`). -/
theorem C2_range_ctor_amended [Inhabited α] (vs : List α) :
    (mkFromRange vs).m_size = vs.length ∧
    (mkFromRange vs).vals = vs ∧
    vs.length ≤ (mkFromRange vs).m_cap ∧
    (∃ k, (mkFromRange vs).m_cap = 8 * 2 ^ k) ∧
    (∀ j, vs.length ≤ 8 * 2 ^ j → (mkFromRange vs).m_cap ≤ 8 * 2 ^ j) := by
  refine ⟨mkFromRange_size vs, vals_mkFromRange vs, mkFromRange_len_le_cap vs, ?_, ?_⟩
  · rw [mkFromRange_cap]
    exact growCap_pow 2 8 vs.length
  · intro j hj
    rw [mkFromRange_cap]
    exact growCap_min 2 (by omega) 8 vs.length (by omega) j hj

/-- Witness for the amended C2 at the concrete input `[1, 2, 3]`. -/
theorem C2_range_ctor_amended_witness :
    (mkFromRange [(1 : Int), 2, 3]).m_size = 3 ∧
      (mkFromRange [(1 : Int), 2, 3]).vals = [1, 2, 3] ∧
      (mkFromRange [(1 : Int), 2, 3]).m_cap ≤ 8 * 2 ^ 0 :=
  ⟨(C2_range_ctor_amended [(1 : Int), 2, 3]).1,
    (C2_range_ctor_amended [(1 : Int), 2, 3]).2.1,
    (C2_range_ctor_amended [(1 : Int), 2, 3]).2.2.2.2 0 (by decide)⟩

/-- Claim C3 (code bug in `operator>`, `operator<=`, `operator>=`): the
ordering operators do not agree with the standard lexicographic order.
With `a = [1]` and `b = [1, 2]`: `a < b` and `a > b` and `a >= b` are all
true simultaneously (whereas the claim requires `a > b` iff `b < a`, which
is false, and `a >= b` iff `not (a < b)`).  With `c = [1, 5]` and
`d = [1, 0]`: `c <= d` is true although `d < c` holds, contradicting
`c <= d` iff `not (d < c)`. -/
theorem C3_ordering_operators_incoherent :
    op_lt (mkFromRange [(1 : Int)]) (mkFromRange [(1 : Int), 2]) = true ∧
    op_gt (mkFromRange [(1 : Int)]) (mkFromRange [(1 : Int), 2]) = true ∧
    op_lt (mkFromRange [(1 : Int), 2]) (mkFromRange [(1 : Int)]) = false ∧
    op_ge (mkFromRange [(1 : Int)]) (mkFromRange [(1 : Int), 2]) = true ∧
    op_le (mkFromRange [(1 : Int), 5]) (mkFromRange [(1 : Int), 0]) = true ∧
    op_lt (mkFromRange [(1 : Int), 0]) (mkFromRange [(1 : Int), 5]) = true := by
  simp only [op_lt, op_gt, op_le, op_ge, vals_mkFromRange]
  decide

/-- Claim C4 (code bug in `remove_at`): `remove_at 1` on `[10, 20, 30, 40]`
does shift by move-assignment, decrement the size to 3 and preserve the
order of the remaining elements `[10, 30, 40]`, but it does NOT destroy the
now-vacated last slot: offset 3 still holds a constructed element. -/
theorem C4_remove_at_no_destroy :
    ((mkFromRange [(10 : Int), 20, 30, 40]).remove_at 1).m_size = 3 ∧
    ((mkFromRange [(10 : Int), 20, 30, 40]).remove_at 1).vals = [10, 30, 40] ∧
    ((mkFromRange [(10 : Int), 20, 30, 40]).remove_at 1).slot 3 = Slot.live 40 := by
  have e : mkFromRange [(10 : Int), 20, 30, 40] =
      ⟨some [Slot.live 10, Slot.live 20, Slot.live 30, Slot.live 40, Slot.raw, Slot.raw,
        Slot.raw, Slot.raw], 4, 8⟩ := by
    rw [mkFromRange_eq, show [(10 : Int), 20, 30, 40].length = 4 from rfl,
      growCap_of_le 2 8 4 (by omega)]
    decide
  rw [e]
  decide

/-- Claim C5, counterexample: the slice assertion
`first <= second && first < m_size && second <= m_size` rejects the bounds
`first = last = size` that the claim admits: `first ≤ last ≤ size` holds
for the empty slice `[0, 0)` of an empty container and for the slice
`[1, 1)` of `[10]`, yet the assertion fails on both (it demands
`first < size`). -/
theorem C5_slice_assert_cex :
    ((0 : Nat) ≤ 0 ∧ 0 ≤ (mkEmpty : dyn_array Int).m_size ∧
      ¬ (mkEmpty : dyn_array Int).sliceAssert 0 0) ∧
    ((1 : Nat) ≤ 1 ∧ 1 ≤ (mkFromRange [(10 : Int)]).m_size ∧
      ¬ (mkFromRange [(10 : Int)]).sliceAssert 1 1) := by
  refine ⟨⟨le_refl 0, le_refl 0, fun h => ?_⟩, ⟨le_refl 1, le_refl 1, fun h => ?_⟩⟩
  · exact absurd h.2.1 (by decide)
  · exact absurd h.2.1 (by rw [mkFromRange_size]; decide)

/-- Claim C5, amended: for bounds with `first ≤ last ≤ size` AND
`first < size`, the slice assertion holds and the slice is a new container
holding copies of the elements at offsets `[first, last)` (it satisfies the
container invariant independently of the original). -/
theorem C5_slice_amended [Inhabited α] (a : dyn_array α) (f l : Nat) (hWF : a.WF)
    (h1 : f ≤ l) (h2 : f < a.m_size) (h3 : l ≤ a.m_size) :
    a.sliceAssert f l ∧
    (a.slice f l).m_size = l - f ∧
    (a.slice f l).vals = (a.vals.drop f).take (l - f) ∧
    (a.slice f l).WF := by
  refine ⟨⟨h1, h2, h3⟩, by simp [slice, mkFromRange_size], ?_, WF_mkFromRange _⟩
  rw [slice, vals_mkFromRange]
  apply List.ext_getElem
  · simp [vals_length]
    omega
  · intro n hn1 hn2
    rw [List.getElem_map, List.getElem_range, List.getElem_take, List.getElem_drop,
      vals_getElem a (f + n) (by simp [vals_length] at hn1 ⊢; omega)]

/-- Witness for the amended C5: slicing `[10, 20, 30, 40]` with bounds
`[1, 3)` yields the two elements `[20, 30]`. -/
theorem C5_slice_amended_witness :
    (mkFromRange [(10 : Int), 20, 30, 40]).sliceAssert 1 3 ∧
      ((mkFromRange [(10 : Int), 20, 30, 40]).slice 1 3).m_size = 3 - 1 ∧
      ((mkFromRange [(10 : Int), 20, 30, 40]).slice 1 3).vals =
        (((mkFromRange [(10 : Int), 20, 30, 40]).vals).drop 1).take (3 - 1) ∧
      ((mkFromRange [(10 : Int), 20, 30, 40]).slice 1 3).WF :=
  C5_slice_amended (mkFromRange [(10 : Int), 20, 30, 40]) 1 3
    (WF_mkFromRange _) (by omega) (by rw [mkFromRange_size]; decide)
    (by rw [mkFromRange_size]; decide)

/-- Claim C6 (code bug in `pop_back`): on the singleton container `[5]`,
`pop_back` returns 5 by move, decrements the size to 0, and leaves the
capacity and the backing pointer unchanged — but it does NOT destroy the
last element: the vacated slot at offset 0 is still constructed. -/
theorem C6_pop_back_no_destroy :
    (mkFromRange [(5 : Int)]).pop_back.1 = 5 ∧
    (mkFromRange [(5 : Int)]).pop_back.2.m_size = 0 ∧
    (mkFromRange [(5 : Int)]).pop_back.2.m_cap = (mkFromRange [(5 : Int)]).m_cap ∧
    (mkFromRange [(5 : Int)]).pop_back.2.m_begin = (mkFromRange [(5 : Int)]).m_begin ∧
    ((mkFromRange [(5 : Int)]).pop_back.2.slot 0).isLive = true := by
  have e : mkFromRange [(5 : Int)] =
      ⟨some [Slot.live 5, Slot.raw, Slot.raw, Slot.raw, Slot.raw, Slot.raw, Slot.raw,
        Slot.raw], 1, 8⟩ := by
    rw [mkFromRange_eq, show [(5 : Int)].length = 1 from rfl, growCap_of_le 2 8 1 (by omega)]
    decide
  rw [e]
  decide

/-- Claim C7: starting from the default-constructed container (size 0,
capacity 0, initial capacity 8, multiplier 2), the capacity is 8 after the
first append and stays 8 through the first 8 appends, and after the 9th
append it is 16. -/
theorem C7_growth_8_to_16 (vs ws : List Int) (h1 : 1 ≤ vs.length) (h2 : vs.length ≤ 8)
    (h3 : ws.length = 9) :
    ((mkEmpty : dyn_array Int).pushList vs).m_cap = 8 ∧
      ((mkEmpty : dyn_array Int).pushList ws).m_cap = 16 := by
  rw [(pushList_cap_size vs mkEmpty).1, (pushList_cap_size ws mkEmpty).1, h3]
  constructor
  · have h8 : ∀ n, 1 ≤ n → n ≤ 8 → capIter 0 0 n = 8 := by
      intro n hn1 hn2
      interval_cases n <;>
        norm_num [capIter, capStep, multiplier, initial_cap, growCap_of_le 2 8 1 (by omega)]
    exact h8 vs.length h1 h2
  · show capIter 0 0 9 = 16
    norm_num [capIter, capStep, multiplier, initial_cap, growCap_of_le 2 8 1 (by omega),
      growCap_2_8_9]

/-- Witness for C7 at a one-element and a nine-element append sequence. -/
theorem C7_growth_8_to_16_witness :
    ((mkEmpty : dyn_array Int).pushList [0]).m_cap = 8 ∧
      ((mkEmpty : dyn_array Int).pushList [0, 1, 2, 3, 4, 5, 6, 7, 8]).m_cap = 16 :=
  C7_growth_8_to_16 [0] [0, 1, 2, 3, 4, 5, 6, 7, 8] (by simp) (by simp) (by simp)

/-- Claim C8: move construction and move assignment transfer the pointer,
size and capacity to the destination (which therefore holds exactly the
source's prior contents in order), and reset the source to the empty state
(size 0, capacity 0, null pointer — the default-constructed container,
which satisfies the invariant and is safely destructible and reusable). -/
theorem C8_move_transfers_and_resets [Inhabited α] (a b : dyn_array α) :
    a.moveCtor.1.m_begin = a.m_begin ∧ a.moveCtor.1.m_size = a.m_size ∧
    a.moveCtor.1.m_cap = a.m_cap ∧ a.moveCtor.1.vals = a.vals ∧
    a.moveCtor.2 = mkEmpty ∧ a.moveCtor.2.m_size = 0 ∧ a.moveCtor.2.m_cap = 0 ∧
    a.moveCtor.2.m_begin = none ∧ a.moveCtor.2.WF ∧
    (b.moveAssign a).1.m_begin = a.m_begin ∧ (b.moveAssign a).1.m_size = a.m_size ∧
    (b.moveAssign a).1.m_cap = a.m_cap ∧ (b.moveAssign a).1.vals = a.vals ∧
    (b.moveAssign a).2 = mkEmpty ∧ (b.moveAssign a).2.WF :=
  ⟨rfl, rfl, rfl, rfl, rfl, rfl, rfl, rfl, WF_mkEmpty, rfl, rfl, rfl, rfl, rfl, WF_mkEmpty⟩

/-- Claim C9: `reserve(n)` followed by `shrink_to_fit()` yields
`capacity == size`, with size and element values unchanged. -/
theorem C9_reserve_shrink_roundtrip [Inhabited α] (a : dyn_array α) (n : Nat) (h : a.WF) :
    ((a.reserve n).shrink_to_fit).m_cap = ((a.reserve n).shrink_to_fit).m_size ∧
    ((a.reserve n).shrink_to_fit).m_size = a.m_size ∧
    ((a.reserve n).shrink_to_fit).vals = a.vals := by
  obtain ⟨hW, hs, hv⟩ := reserve_spec a n h
  obtain ⟨hc2, hs2, hv2⟩ := shrink_to_fit_spec (a.reserve n) hW
  exact ⟨by rw [hc2, hs2], by rw [hs2, hs], by rw [hv2, hv]⟩

/-- Witness for C9 at the container `[1, 2]` and reservation 5. -/
theorem C9_reserve_shrink_roundtrip_witness :
    (((mkFromRange [(1 : Int), 2]).reserve 5).shrink_to_fit).m_cap =
        (((mkFromRange [(1 : Int), 2]).reserve 5).shrink_to_fit).m_size ∧
      (((mkFromRange [(1 : Int), 2]).reserve 5).shrink_to_fit).m_size =
        (mkFromRange [(1 : Int), 2]).m_size ∧
      (((mkFromRange [(1 : Int), 2]).reserve 5).shrink_to_fit).vals =
        (mkFromRange [(1 : Int), 2]).vals :=
  C9_reserve_shrink_roundtrip (mkFromRange [(1 : Int), 2]) 5 (WF_mkFromRange _)

/-- Claim C10: the count(-and-fill) constructors always allocate a backing
buffer (so the pointer is non-null even for count 0) and set the capacity
to the smallest value of the form `8 * 2 ^ k` that is at least the count;
for count 0 the capacity is 8, not the unallocated empty state.  The
no-fill-value constructor is the fill constructor at the value-initialized
element. -/
theorem C10_count_ctor_allocates_policy_capacity [Inhabited α] (count : Nat) (v : α) :
    mkCount (α := α) count = mkCountFill count default ∧
    (mkCountFill count v).m_begin =
      some (List.replicate count (Slot.live v) ++
        List.replicate (growCap 2 8 count - count) Slot.raw) ∧
    (∃ k, (mkCountFill count v).m_cap = 8 * 2 ^ k) ∧
    count ≤ (mkCountFill count v).m_cap ∧
    (∀ j, count ≤ 8 * 2 ^ j → (mkCountFill count v).m_cap ≤ 8 * 2 ^ j) ∧
    (count = 0 → (mkCountFill count v).m_cap = 8) := by
  refine ⟨rfl, ?_, ?_, ?_, ?_, ?_⟩
  · rw [mkCountFill_eq]
  · rw [mkCountFill_cap]
    exact growCap_pow 2 8 count
  · rw [mkCountFill_cap]
    exact growCap_ge 2 (by omega) 8 count (by omega)
  · intro j hj
    rw [mkCountFill_cap]
    exact growCap_min 2 (by omega) 8 count (by omega) j hj
  · intro h0
    rw [mkCountFill_cap, h0, growCap_of_le 2 8 0 (by omega)]

/-- Witness for C10 at count 0: storage is allocated and the capacity is 8. -/
theorem C10_count_ctor_witness :
    (mkCountFill 0 (7 : Int)).m_cap = 8 ∧ (mkCountFill 0 (7 : Int)).m_cap ≤ 8 * 2 ^ 0 :=
  ⟨(C10_count_ctor_allocates_policy_capacity 0 (7 : Int)).2.2.2.2.2 rfl,
    (C10_count_ctor_allocates_policy_capacity 0 (7 : Int)).2.2.2.2.1 0 (by omega)⟩

end dyn_array

end cz
